import Mathlib

set_option maxHeartbeats 1000000
set_option maxRecDepth 4000
set_option autoImplicit false
set_option synthInstance.maxSize 512
set_option synthInstance.maxHeartbeats 400000

/- Shallow embedding of tensorflow_ranking/python/data.py.

   Machine scalars (python ints / floats, tf numeric tensor elements) are
   modelled as rationals: the code performs no arithmetic on them beyond
   comparison with zero, so every value occurring is exactly representable.
   Python strings are Lean strings.  Tensors of rank >= 2 are modelled as
   batch-of-rows lists together with their declared dimensions; sparse
   tensors keep the index/value/dense_shape triple.  Fallible python code
   (raised exceptions, failed tf ops) is modelled with Except String.  The
   proto decoder (tf.io.parse_sequence_example) is an external collaborator:
   its output (context map, example map, sizes map) is taken as input. -/

deriving instance DecidableEq for Except

/-- A python scalar runtime value: a number (int or float) or a string. -/
inductive PyScalar where
  | num (x : ℚ)
  | str (s : String)
  deriving DecidableEq

/-- A python value as it occurs in `default_value` positions: a scalar or a
list/tuple of scalars. -/
inductive PyVal where
  | scalar (v : PyScalar)
  | vlist (xs : List PyScalar)
  deriving DecidableEq

/-- Element type of a feature; the source only ever tests `dtype == tf.string`. -/
inductive DType where
  | string
  | float32
  | int64
  deriving DecidableEq

/-- Python truthiness of a `PyVal` (`bool(v)`). -/
def py_truthy : PyVal → Bool
  | .scalar (.num x) => x ≠ 0
  | .scalar (.str s) => s ≠ ""
  | .vlist xs => ¬ xs.isEmpty

/-- The `isinstance(v, six.text_type)` test. -/
def is_text_type : PyVal → Bool
  | .scalar (.str _) => true
  | _ => false

/-- The python comparison `v != 0` (strings and lists are unequal to 0). -/
def py_ne_zero : PyVal → Bool
  | .scalar (.num x) => x ≠ 0
  | _ => true

/-- Embedding of `_get_scalar_default_value(dtype, default_value)` from
data.py.  For `tf.string` dtype it returns `default_value or ""`; otherwise
`None` resolves to `0`, a bare number to itself, a one-element list/tuple to
its element, and anything else raises `ValueError`. -/
def get_scalar_default_value (dtype : DType) (default_value : Option PyVal) :
    Except String PyVal :=
  if dtype = DType.string then
    .ok (match default_value with
      | none => .scalar (.str "")
      | some v => if py_truthy v then v else .scalar (.str ""))
  else
    match default_value with
    | none => .ok (.scalar (.num 0))
    | some (.scalar (.num x)) => .ok (.scalar (.num x))
    | some (.vlist [v]) => .ok (.scalar v)
    | some _ => .error "Only scalar or equivalent is allowed in default_value."

/-- A `tf.io.FixedLenFeature`: shape, dtype and optional default value. -/
structure FixedLenFeature where
  shape : List ℕ
  dtype : DType
  default_value : Option PyVal
  deriving DecidableEq

/-- A feature spec entry: `FixedLenFeature` or `VarLenFeature`. -/
inductive FeatureSpec where
  | fixedLen (f : FixedLenFeature)
  | varLen (dtype : DType)
  deriving DecidableEq

/-- The registration test of data.py line 108:
`scalar and not isinstance(scalar, six.text_type) and scalar != 0`. -/
def nontrivial_padding (scalar : PyVal) : Bool :=
  py_truthy scalar && !is_text_type scalar && py_ne_zero scalar

/-- The registry-building part of the first loop of
`parse_from_sequence_example` (data.py lines 100-109): for every
`FixedLenFeature` in `example_feature_spec`, resolve its scalar default and
record it under the feature key iff it passes the non-trivial test.
`VarLenFeature` entries are skipped. -/
def build_padding_values :
    List (String × FeatureSpec) → Except String (List (String × PyVal))
  | [] => .ok []
  | (_, .varLen _) :: rest => build_padding_values rest
  | (k, .fixedLen f) :: rest => do
    let scalar ← get_scalar_default_value f.dtype f.default_value
    let rest' ← build_padding_values rest
    if nontrivial_padding scalar then
      .ok ((k, scalar) :: rest')
    else
      .ok rest'


/-- A dense tensor of rank `2 + cellShape.length`, shaped
`[batch, frames, *cellShape]`.  `rows` holds one list of positions per batch
row, each position a flattened cell of `cellShape.prod` scalars.  `static1`
records the statically-declared 2nd-dimension size (`None` when dynamic),
the piece of shape metadata `set_shape` writes at data.py line 182. -/
structure DenseTensor where
  batch : ℕ
  frames : ℕ
  cellShape : List ℕ
  static1 : Option ℤ
  rows : List (List (List PyScalar))
  deriving DecidableEq

/-- A `tf.sparse.SparseTensor`: index/value/dense_shape triple. -/
structure SparseTensorV where
  indices : List (List ℕ)
  values : List PyScalar
  dense_shape : List ℕ
  deriving DecidableEq

/-- A decoded feature tensor: dense or sparse. -/
inductive TensorV where
  | dense (d : DenseTensor)
  | sparse (s : SparseTensorV)
  deriving DecidableEq

/-- The runtime shape `tf.shape(t)` of a tensor. -/
def dims : TensorV → List ℕ
  | .dense d => d.batch :: d.frames :: d.cellShape
  | .sparse s => s.dense_shape

/-- The 2nd-dimension size `tf.shape(t)[1]` (position count) of a tensor. -/
def dim1 (t : TensorV) : ℕ := ((dims t).get? 1).getD 0

/-- Key and runtime shape of a tensor, with its dense/sparse kind; used to
state that shapes survive the padding-value reconciliation pass. -/
def tshape : TensorV → Bool × List ℕ
  | .dense d => (true, d.batch :: d.frames :: d.cellShape)
  | .sparse s => (false, s.dense_shape)

/-- Basic well-formedness of a dense tensor: the data agrees with the
declared `[batch, frames, *cellShape]` dims. -/
def wf_dense (d : DenseTensor) : Bool :=
  d.rows.length = d.batch &&
  d.rows.all (fun r => r.length = d.frames &&
    r.all (fun c => c.length = d.cellShape.prod))

/-- Well-formedness of a sparse tensor: indices and values run in parallel,
rank is at least 2, and every index lies inside `dense_shape`. -/
def list_lt : List ℕ → List ℕ → Bool
  | [], [] => true
  | i :: is, b :: bs => i < b && list_lt is bs
  | _, _ => false

def wf_sparse (s : SparseTensorV) : Bool :=
  s.indices.length = s.values.length &&
  2 ≤ s.dense_shape.length &&
  s.indices.all (fun idx => idx.length = s.dense_shape.length &&
    list_lt idx s.dense_shape)

def wf_tensor : TensorV → Bool
  | .dense d => wf_dense d
  | .sparse s => wf_sparse s

def wf_examples (exs : List (String × TensorV)) : Bool :=
  exs.all (fun p => wf_tensor p.2)

/-- The decoder's output (`tf.io.parse_sequence_example`, an external
collaborator): context map, per-position example map, and per-feature
true-length vectors. -/
structure ParsedBatch where
  context : List (String × TensorV)
  examples : List (String × TensorV)
  sizes : List (String × List ℕ)
  deriving DecidableEq

/-- List map carrying the element position, starting at `i`. -/
def map_idx_from {α β : Type} (f : ℕ → α → β) : ℕ → List α → List β
  | _, [] => []
  | i, a :: l => f i a :: map_idx_from f (i + 1) l

/-- Python dict assignment `d[k] = v` for a key already present: replace the
value at the first matching key, keeping order. -/
def update_assoc {α : Type} : List (String × α) → String → α → List (String × α)
  | [], _, _ => []
  | p :: l, k, v => if p.1 = k then (k, v) :: l else p :: update_assoc l k v

/-- The cell of a dense tensor at batch row `i`, position `j` (the whole
`shape[2:]` sub-tensor, flattened), when present. -/
def cell_at (d : DenseTensor) (i j : ℕ) : Option (List PyScalar) :=
  ((d.rows.get? i).getD []).get? j

/-- The row-level shape facts of a dense tensor used by the normalizer. -/
def rows_wf (d : DenseTensor) : Prop :=
  d.rows.length = d.batch ∧ ∀ r ∈ d.rows, r.length = d.frames

/-- Embedding of the padding-value reconciliation body (data.py lines
119-129) for one registered feature: assert rank 3, build the position-rank
mask by `reshape(tile(range(frames), [batch]), shape(tensor))` (which fails
unless the element counts agree), and `tf.where` the registered default `v`
into every element whose rank is not below the row's true size. -/
def rank_tile (t : DenseTensor) (i j c : ℕ) : ℕ :=
  (((List.replicate t.batch (List.range t.frames)).flatten).get?
    ((i * t.frames + j) * t.cellShape.headD 0 + c)).getD 0

def reconcile_tensor (t : DenseTensor) (sizes : List ℕ) (v : PyVal) :
    Except String DenseTensor :=
  if t.cellShape.length = 1 then
    if t.batch * t.frames = t.batch * t.frames * t.cellShape.headD 0 then
      match v with
      | .scalar (.num x) =>
        .ok { t with rows :=
          map_idx_from (fun i row =>
            map_idx_from (fun j cell =>
              map_idx_from (fun c e =>
                if rank_tile t i j c < (sizes.get? i).getD 0 then e
                else .num x) 0 cell) 0 row) 0 t.rows }
      | _ => .error "tf.where: incompatible padding value."
    else
      .error "Cannot reshape a tensor: input and requested sizes differ."
  else
    .error "Shape must have rank 3."

/-- The reconciliation loop of `parse_from_sequence_example` (data.py lines
119-129): for each entry of the padding-value registry, look up the decoded
tensor and its true-size vector and rewrite the tensor in place. -/
def apply_padding_values (sizes : List (String × List ℕ)) :
    List (String × PyVal) → List (String × TensorV) →
    Except String (List (String × TensorV))
  | [], exs => .ok exs
  | (k, v) :: rest, exs =>
    match exs.lookup k with
    | none => .error "KeyError: example feature missing."
    | some (.sparse _) => .error "tf.where: expected a dense tensor."
    | some (.dense d) =>
      match sizes.lookup k with
      | none => .error "KeyError: sizes missing."
      | some sz =>
        match reconcile_tensor d sz v with
        | .error e => .error e
        | .ok d' => apply_padding_values sizes rest (update_assoc exs k (.dense d'))

/-- Lines 92-93 of data.py: a `list_size` that is specified but not positive
is reset to `None`. -/
def resolved_list_size : Option ℤ → Option ℤ
  | some n => if n ≤ 0 then none else some n
  | none => none

/-- The target length of data.py lines 131-136: the caller's (resolved)
`list_size` when present, otherwise
`tf.reduce_max(tf.stack([tf.shape(t)[1] for t in examples.values()]))`.
`tf.stack` of an empty python list raises. -/
def target_length (ls : Option ℤ) (examples : List (String × TensorV)) :
    Except String ℕ :=
  match ls with
  | some n => .ok n.toNat
  | none =>
    match examples with
    | [] => .error "tf.stack: expected a non-empty list of tensors."
    | _ => .ok ((examples.map (fun p => dim1 p.2)).foldr max 0)

/-- Embedding of the per-feature truncate-or-pad normalization (data.py
lines 142-183): compute `new_shape = [shape[0], list_size] ++ shape[2:]`,
truncate (`tf.slice` / `tf.sparse.slice`) when `num_frames > list_size`,
otherwise pad (`tf.pad` with the feature's resolved scalar default /
`tf.sparse.reset_shape`), then `set_shape` the static 2nd dim of a dense
result to `list_size_arg`. -/
def normalize_feature (efs : List (String × FeatureSpec))
    (list_size_arg : Option ℤ) (list_size : ℕ) (k : String) (t : TensorV) :
    Except String TensorV :=
  let shape := dims t
  let num_frames := (shape.get? 1).getD 0
  let new_shape := (shape.get? 0).getD 0 :: list_size :: shape.drop 2
  let normalized : Except String TensorV :=
    if num_frames > list_size then
      -- truncate_fn: slice away positions at or beyond list_size; the
      -- slice extent is full in every dimension other than the 2nd.
      match t with
      | .sparse st =>
        let kept := (st.indices.zip st.values).filter
          (fun p => list_lt p.1 new_shape)
        .ok (.sparse ⟨kept.map Prod.fst, kept.map Prod.snd,
          List.zipWith min st.dense_shape new_shape⟩)
      | .dense d =>
        .ok (.dense { d with
          frames := list_size
          rows := d.rows.map (fun r => r.take list_size) })
    else
      -- pad_fn: append list_size - num_frames positions of the resolved
      -- scalar default (dense), or reset the dense shape (sparse).
      match t with
      | .sparse st =>
        if st.indices.all (fun idx => list_lt idx new_shape) then
          .ok (.sparse ⟨st.indices, st.values, new_shape⟩)
        else
          .error "tf.sparse.reset_shape: new shape is too small."
      | .dense d =>
        match efs.lookup k with
        | none => .error "KeyError: feature spec missing."
        | some (.varLen _) =>
          .error "AttributeError: VarLenFeature has no default_value."
        | some (.fixedLen f) =>
          match get_scalar_default_value f.dtype f.default_value with
          | .error e => .error e
          | .ok (.vlist _) => .error "tf.pad: constant_values must be a scalar."
          | .ok (.scalar pad_val) =>
            .ok (.dense { d with
              frames := list_size
              rows := d.rows.map (fun r =>
                r ++ List.replicate (list_size - num_frames)
                  (List.replicate d.cellShape.prod pad_val)) })
  match normalized with
  | .error e => .error e
  | .ok (.dense d) => .ok (.dense { d with static1 := list_size_arg })
  | .ok (.sparse st) => .ok (.sparse st)

/-- The collection loop of data.py lines 140-183 over all example features. -/
def normalize_all (efs : List (String × FeatureSpec))
    (list_size_arg : Option ℤ) (list_size : ℕ) :
    List (String × TensorV) → Except String (List (String × TensorV))
  | [] => .ok []
  | (k, t) :: rest => do
    let t' ← normalize_feature efs list_size_arg list_size k t
    let rest' ← normalize_all efs list_size_arg list_size rest
    .ok ((k, t') :: rest')

/-- Embedding of `parse_from_sequence_example` (data.py lines 56-185) over
the decoder's output `decoded`: reset a non-positive `list_size`, build the
padding-value registry (failing before any decoding is consulted),
reconcile registered features, resolve the target length, normalize every
example feature, and return the context features together with the
normalized example features. -/
def parse_from_sequence_example (decoded : ParsedBatch)
    (list_size : Option ℤ) (example_feature_spec : List (String × FeatureSpec)) :
    Except String (List (String × TensorV)) := do
  let ls := resolved_list_size list_size
  let padding_values ← build_padding_values example_feature_spec
  let examples ← apply_padding_values decoded.sizes padding_values decoded.examples
  let target ← target_length ls examples
  let feats ← normalize_all example_feature_spec ls target examples
  .ok (decoded.context ++ feats)



/- The LibSVM text aggregator (data.py lines 422-534).  A parsed line is a
pair of query id and document record; a document record is the python dict
produced by `_libsvm_parse_line`, in insertion order ("label" first, then
the line's feature pairs).  Feature values are floats, modelled as ℚ. -/

/-- A document record: mapping from feature id to value, insertion-ordered. -/
abbrev Doc := List (String × ℚ)

/-- `_LABEL_FEATURE`: the reserved feature id of the relevance grade. -/
def LABEL_FEATURE : String := "label"

/-- `_PADDING_LABEL`: the sentinel filling label slots with no document. -/
def PADDING_LABEL : ℚ := -1

/-- The declared feature ids `str(fid + 1) for fid in range(num_features)`. -/
def declared_ids (num_features : ℕ) : List String :=
  (List.range num_features).map (fun fid => toString (fid + 1))

/-- The numpy assignment `m[idx, 0] = value` on a `[list_size, 1]` matrix. -/
def mat_set (m : List (List ℚ)) (idx : ℕ) (value : ℚ) : List (List ℚ) :=
  m.set idx ((m.getD idx []).set 0 value)

/-- The inner loop of `_libsvm_generate` (data.py lines 470-474) for one
document at position `idx`: write the label into the label vector and every
other feature value into `features.get(feature_id)[idx, 0]`.  A feature id
outside the declared ids makes `features.get` return `None`, so the
assignment raises a `TypeError`. -/
def fill_doc (idx : ℕ) :
    Doc → List (String × List (List ℚ)) × List ℚ →
    Except String (List (String × List (List ℚ)) × List ℚ)
  | [], st => .ok st
  | (feature_id, value) :: rest, (features, labels) =>
    if feature_id = LABEL_FEATURE then
      fill_doc idx rest (features, labels.set idx value)
    else
      match features.lookup feature_id with
      | none => .error "TypeError: NoneType does not support item assignment."
      | some m => fill_doc idx rest (update_assoc features feature_id (mat_set m idx value), labels)

/-- The `enumerate(doc_list)` loop of `_libsvm_generate`. -/
def fill_docs (idx : ℕ) :
    List Doc → List (String × List (List ℚ)) × List ℚ →
    Except String (List (String × List (List ℚ)) × List ℚ)
  | [], st => .ok st
  | doc :: rest, st =>
    match fill_doc idx doc st with
    | .error e => .error e
    | .ok st' => fill_docs (idx + 1) rest st'

/-- Embedding of `_libsvm_generate(num_features, list_size, doc_list)`
(data.py lines 443-476) applied after the in-place `np.random.shuffle`:
`doc_list` here is the already-shuffled buffer.  Allocates zeroed
`[list_size, 1]` feature matrices and a `PADDING_LABEL`-filled label vector,
trims the document list to `list_size`, and fills both from the surviving
documents. -/
def libsvm_generate (num_features list_size : ℕ) (doc_list : List Doc) :
    Except String (List (String × List (List ℚ)) × List ℚ) :=
  let features := (declared_ids num_features).map
    (fun fid => (fid, List.replicate list_size [(0 : ℚ)]))
  let labels := List.replicate list_size PADDING_LABEL
  let doc_list := if doc_list.length > list_size then doc_list.take list_size else doc_list
  fill_docs 0 doc_list (features, labels)

/-- One step of the aggregation loop of `inner_generator` (data.py lines
516-530) on the state (current query id, accumulating document list, batches
emitted so far): a non-positive current id is first reset to the line's id;
a line whose id equals the current id is appended, any other line finalizes
the accumulated list and seeds a fresh one. -/
def libsvm_step : (ℤ × List Doc × List (List Doc)) → ℤ × Doc →
    ℤ × List Doc × List (List Doc)
  | (cur, doc_list, out), (qid, doc) =>
    let cur := if cur < 0 then qid else cur
    if qid = cur then (cur, doc_list ++ [doc], out)
    else (qid, [doc], out ++ [doc_list])

/-- The sequence of document lists `inner_generator` passes to
`_libsvm_generate`: the lists finalized on a query-id change, followed by
the one finalized after input exhaustion (data.py line 532). -/
def inner_generator_batches (lines : List (ℤ × Doc)) : List (List Doc) :=
  let st := lines.foldl libsvm_step (-1, [], [])
  st.2.2 ++ [st.2.1]

/-- Error-propagating map over a list, in source order. -/
def map_except {α β : Type} (f : α → Except String β) :
    List α → Except String (List β)
  | [] => .ok []
  | a :: as => do
    let b ← f a
    let bs ← map_except f as
    .ok (b :: bs)

/-- Embedding of `inner_generator` (data.py lines 494-532) on the parsed
lines of the input file.  The in-place `np.random.shuffle` is injected as
the function `shuffle`, applied to each finalized document list before
`_libsvm_generate` unpacks it. -/
def inner_generator (shuffle : List Doc → List Doc)
    (num_features list_size : ℕ) (lines : List (ℤ × Doc)) :
    Except String (List (List (String × List (List ℚ)) × List ℚ)) :=
  map_except (fun b => libsvm_generate num_features list_size (shuffle b))
    (inner_generator_batches lines)




/- Helper lemmas on the Except monad. -/

@[simp]
theorem except_bind_ok {α β : Type} (a : α) (f : α → Except String β) :
    (Except.ok a >>= f) = f a := rfl

@[simp]
theorem except_bind_error {α β : Type} (e : String) (f : α → Except String β) :
    ((Except.error e : Except String α) >>= f) = Except.error e := rfl

/- Helper lemmas on association lists. -/

theorem update_assoc_keys {α : Type} (l : List (String × α)) (k : String)
    (v : α) : (update_assoc l k v).map Prod.fst = l.map Prod.fst := by
  induction l with
  | nil => rfl
  | cons p rest ih =>
    by_cases h : p.1 = k <;> simp [update_assoc, h, ih]

theorem lookup_isSome_iff {α : Type} (l : List (String × α)) (k : String) :
    (l.lookup k).isSome = true ↔ k ∈ l.map Prod.fst := by
  induction l with
  | nil => simp [List.lookup]
  | cons p rest ih =>
    obtain ⟨k₀, v₀⟩ := p
    by_cases h : k = k₀
    · subst h
      simp [List.lookup]
    · have hb : (k == k₀) = false := beq_eq_false_iff_ne.mpr h
      simp [List.lookup, hb, h, ih]

/- Claim C5 -/

/-- The registration test passes exactly for nonzero numbers and non-empty
sequences; text strings never pass it. -/
theorem nontrivial_padding_iff (v : PyVal) :
    nontrivial_padding v = true ↔
      ((∃ x : ℚ, x ≠ 0 ∧ v = .scalar (.num x)) ∨
       (∃ l, l ≠ [] ∧ v = .vlist l)) := by
  cases v with
  | scalar sc =>
    cases sc with
    | num x => simp [nontrivial_padding, py_truthy, is_text_type, py_ne_zero]
    | str s => simp [nontrivial_padding, py_truthy, is_text_type]
  | vlist xs =>
    simp [nontrivial_padding, py_truthy, is_text_type, py_ne_zero,
      List.isEmpty_iff]

/-- C5 counterexample: a Fixed-kind spec of string type with default `"x"`
has effective scalar default `"x"`, which is neither `0` nor the empty
string — non-trivial in the claim's sense — yet the registry built for it
is empty: the code's `not isinstance(scalar, six.text_type)` conjunct
excludes every text default from registration. -/
theorem c5_counterexample_nontrivial_string_not_registered :
    build_padding_values
        [("s", .fixedLen ⟨[1], DType.string, some (.scalar (.str "x"))⟩)] =
      .ok [] ∧
    get_scalar_default_value DType.string (some (.scalar (.str "x"))) =
      .ok (.scalar (.str "x")) ∧
    PyVal.scalar (.str "x") ≠ .scalar (.str "") ∧
    PyVal.scalar (.str "x") ≠ .scalar (.num 0) := by
  decide

/-- C5 amended: a field is registered in the padding-value registry iff it
has a Fixed-kind spec whose effective scalar default is a nonzero number or
a non-empty sequence; text-string defaults (and Variable-kind specs) are
never registered. -/
theorem c5_amended_registry_characterization
    (efs : List (String × FeatureSpec)) (pv : List (String × PyVal))
    (hok : build_padding_values efs = .ok pv) (k : String) (v : PyVal) :
    (k, v) ∈ pv ↔
      (∃ f, (k, FeatureSpec.fixedLen f) ∈ efs ∧
        get_scalar_default_value f.dtype f.default_value = .ok v ∧
        ((∃ x : ℚ, x ≠ 0 ∧ v = .scalar (.num x)) ∨
         (∃ l, l ≠ [] ∧ v = .vlist l))) := by
  induction efs generalizing pv with
  | nil =>
    simp only [build_padding_values, Except.ok.injEq] at hok
    subst hok
    simp
  | cons p rest ih =>
    obtain ⟨k₀, s₀⟩ := p
    cases s₀ with
    | varLen dt =>
      simp only [build_padding_values] at hok
      rw [ih pv hok]
      constructor
      · rintro ⟨f, hf, h⟩
        exact ⟨f, List.mem_cons_of_mem _ hf, h⟩
      · rintro ⟨f, hf, h⟩
        rcases List.mem_cons.mp hf with heq | hmem
        · simp at heq
        · exact ⟨f, hmem, h⟩
    | fixedLen f₀ =>
      simp only [build_padding_values] at hok
      cases hres : get_scalar_default_value f₀.dtype f₀.default_value with
      | error e => rw [hres] at hok; simp at hok
      | ok s =>
        rw [hres] at hok
        cases hrest : build_padding_values rest with
        | error e => rw [hrest] at hok; simp at hok
        | ok rest' =>
          rw [hrest] at hok
          simp only [except_bind_ok] at hok
          by_cases hnt : nontrivial_padding s = true
          · rw [if_pos hnt] at hok
            simp only [Except.ok.injEq] at hok
            subst hok
            rw [List.mem_cons, ih rest' hrest]
            constructor
            · rintro (heq | ⟨f, hf, h⟩)
              · obtain ⟨hk, hv⟩ := Prod.mk.injEq .. ▸ heq
                subst hk
                subst hv
                exact ⟨f₀, List.mem_cons_self _ _, hres,
                  (nontrivial_padding_iff v).mp hnt⟩
              · exact ⟨f, List.mem_cons_of_mem _ hf, h⟩
            · rintro ⟨f, hf, hres', hcond⟩
              rcases List.mem_cons.mp hf with heq | hmem
              · obtain ⟨hk, hf'⟩ := Prod.mk.injEq .. ▸ heq
                cases hf'
                subst hk
                rw [hres] at hres'
                simp only [Except.ok.injEq] at hres'
                exact Or.inl (by rw [hres'])
              · exact Or.inr ⟨f, hmem, hres', hcond⟩
          · rw [if_neg hnt] at hok
            simp only [Except.ok.injEq] at hok
            subst hok
            rw [ih rest' hrest]
            constructor
            · rintro ⟨f, hf, h⟩
              exact ⟨f, List.mem_cons_of_mem _ hf, h⟩
            · rintro ⟨f, hf, hres', hcond⟩
              rcases List.mem_cons.mp hf with heq | hmem
              · obtain ⟨hk, hf'⟩ := Prod.mk.injEq .. ▸ heq
                cases hf'
                subst hk
                rw [hres] at hres'
                simp only [Except.ok.injEq] at hres'
                subst hres'
                exact absurd ((nontrivial_padding_iff s).mpr hcond) hnt
              · exact ⟨f, hmem, hres', hcond⟩

theorem c5_amended_registry_characterization_witness :
    ("lbl", PyVal.scalar (.num (-1))) ∈ [("lbl", PyVal.scalar (.num (-1)))] :=
  (c5_amended_registry_characterization
      [("lbl", .fixedLen ⟨[1], .float32, some (.vlist [.num (-1)])⟩)]
      [("lbl", .scalar (.num (-1)))] (by decide) "lbl"
      (.scalar (.num (-1)))).mpr
    ⟨⟨[1], .float32, some (.vlist [.num (-1)])⟩, by decide, by decide,
      Or.inl ⟨-1, by decide, rfl⟩⟩

/- Claim C10 -/

/-- C10: `parse_from_sequence_example` called with a specified but
non-positive `list_size` behaves exactly as if `list_size` were unspecified
(data.py lines 92-93 reset it to `None`, so the target length is the
dynamic batch maximum and no static 2nd dimension is fixed). -/
theorem c10_nonpositive_list_size_is_dynamic (decoded : ParsedBatch)
    (efs : List (String × FeatureSpec)) (n : ℤ) (h : n ≤ 0) :
    parse_from_sequence_example decoded (some n) efs =
      parse_from_sequence_example decoded none efs := by
  unfold parse_from_sequence_example
  simp [resolved_list_size, h]

/- Claim C4 -/

/-- C4 counterexample: for a Fixed-kind spec of string type, a two-element
sequence default is neither a scalar nor a single-element sequence, yet
`_get_scalar_default_value` raises no configuration error: it returns
`default_value or ""`, here the list itself, unchanged. -/
theorem c4_counterexample_string_list_default_not_rejected :
    get_scalar_default_value DType.string
        (some (.vlist [.str "a", .str "b"])) =
      .ok (.vlist [.str "a", .str "b"]) := by
  decide

/-- C4 amended: for a Fixed-kind spec of non-string element type the
effective scalar default resolves as the claim states (None to 0, a bare
number to itself, a single-element sequence to its element, anything else
to the configuration error), but for string element type no validation
happens: a falsy default resolves to the empty string and any truthy
default is passed through unchanged.  A resolution error is raised before
any decoding occurs: `parse_from_sequence_example` then returns that error
for every decoder output. -/
theorem c4_amended_scalar_default_resolution :
    (∀ dt, dt ≠ DType.string →
      get_scalar_default_value dt none = .ok (.scalar (.num 0))) ∧
    (∀ dt x, dt ≠ DType.string →
      get_scalar_default_value dt (some (.scalar (.num x))) =
        .ok (.scalar (.num x))) ∧
    (∀ dt v, dt ≠ DType.string →
      get_scalar_default_value dt (some (.vlist [v])) = .ok (.scalar v)) ∧
    (∀ dt s, dt ≠ DType.string →
      get_scalar_default_value dt (some (.scalar (.str s))) =
        .error "Only scalar or equivalent is allowed in default_value.") ∧
    (∀ dt l, dt ≠ DType.string → l.length ≠ 1 →
      get_scalar_default_value dt (some (.vlist l)) =
        .error "Only scalar or equivalent is allowed in default_value.") ∧
    (get_scalar_default_value DType.string none = .ok (.scalar (.str ""))) ∧
    (∀ v, py_truthy v = false →
      get_scalar_default_value DType.string (some v) = .ok (.scalar (.str ""))) ∧
    (∀ v, py_truthy v = true →
      get_scalar_default_value DType.string (some v) = .ok v) ∧
    (∀ decoded ls efs e, build_padding_values efs = .error e →
      parse_from_sequence_example decoded ls efs = .error e) := by
  refine ⟨?_, ?_, ?_, ?_, ?_, rfl, ?_, ?_, ?_⟩
  · intro dt h; cases dt <;> simp_all <;> rfl
  · intro dt x h; cases dt <;> simp_all <;> rfl
  · intro dt v h; cases dt <;> simp_all <;> rfl
  · intro dt s h; cases dt <;> simp_all <;> rfl
  · intro dt l h hlen
    cases dt <;> simp_all <;> rcases l with _ | ⟨a, _ | ⟨b, l⟩⟩ <;> simp_all <;> rfl
  · intro v h; simp [get_scalar_default_value, h]
  · intro v h; simp [get_scalar_default_value, h]
  · intro decoded ls efs e h
    simp [parse_from_sequence_example, h]

theorem c4_amended_scalar_default_resolution_witness :
    parse_from_sequence_example ⟨[], [], []⟩ none
        [("f", .fixedLen ⟨[2], .float32, some (.vlist [])⟩)] =
      .error "Only scalar or equivalent is allowed in default_value." :=
  c4_amended_scalar_default_resolution.2.2.2.2.2.2.2.2 _ _ _ _ (by decide)

theorem c10_nonpositive_list_size_is_dynamic_witness :
    parse_from_sequence_example
        ⟨[], [("f", .dense ⟨1, 1, [1], none, [[[.num 2]]]⟩)], [("f", [1])]⟩
        (some (-3)) [("f", .fixedLen ⟨[1], .float32, none⟩)] =
      parse_from_sequence_example
        ⟨[], [("f", .dense ⟨1, 1, [1], none, [[[.num 2]]]⟩)], [("f", [1])]⟩
        none [("f", .fixedLen ⟨[1], .float32, none⟩)] :=
  c10_nonpositive_list_size_is_dynamic _ _ (-3) (by decide)

/- Claim C8 -/

theorem fill_doc_keys (idx : ℕ) (doc : Doc)
    (features : List (String × List (List ℚ))) (labels : List ℚ)
    (features' : List (String × List (List ℚ))) (labels' : List ℚ)
    (h : fill_doc idx doc (features, labels) = .ok (features', labels')) :
    features'.map Prod.fst = features.map Prod.fst := by
  induction doc generalizing features labels with
  | nil =>
    simp only [fill_doc, Except.ok.injEq, Prod.mk.injEq] at h
    rw [h.1]
  | cons p rest ih =>
    obtain ⟨fid, value⟩ := p
    by_cases hl : fid = LABEL_FEATURE
    · rw [fill_doc, if_pos hl] at h
      exact ih _ _ h
    · rw [fill_doc, if_neg hl] at h
      cases hlk : features.lookup fid with
      | none => rw [hlk] at h; cases h
      | some m =>
        rw [hlk] at h
        rw [ih _ _ h]
        exact update_assoc_keys features fid (mat_set m idx value)

/-- Filling one document succeeds iff every feature id it mentions is the
label id or one of the feature-matrix keys. -/
theorem fill_doc_ok_iff (idx : ℕ) (doc : Doc)
    (features : List (String × List (List ℚ))) (labels : List ℚ) :
    (∃ st', fill_doc idx doc (features, labels) = .ok st') ↔
      ∀ p ∈ doc, p.1 = LABEL_FEATURE ∨ p.1 ∈ features.map Prod.fst := by
  induction doc generalizing features labels with
  | nil => simp [fill_doc]
  | cons p rest ih =>
    obtain ⟨fid, value⟩ := p
    by_cases hl : fid = LABEL_FEATURE
    · rw [fill_doc, if_pos hl]
      rw [ih]
      simp [hl]
    · rw [fill_doc, if_neg hl]
      split
      · rename_i hlk
        have hnotin : fid ∉ features.map Prod.fst := by
          rw [← lookup_isSome_iff, hlk]
          simp
        constructor
        · rintro ⟨st', hst⟩
          cases hst
        · intro hall
          rcases hall (fid, value) (List.mem_cons_self _ _) with h | h
          · exact absurd h hl
          · exact absurd h hnotin
      · rename_i m hlk
        have hin : fid ∈ features.map Prod.fst := by
          rw [← lookup_isSome_iff, hlk]
          rfl
        rw [ih, update_assoc_keys]
        constructor
        · intro hrest p hp
          rcases List.mem_cons.mp hp with heq | hmem
          · subst heq
            exact Or.inr hin
          · exact hrest p hmem
        · intro hall p hp
          exact hall p (List.mem_cons_of_mem _ hp)

/-- Filling a document list succeeds iff every document mentions only the
label id or feature-matrix keys. -/
theorem fill_docs_ok_iff (docs : List Doc) (idx : ℕ)
    (features : List (String × List (List ℚ))) (labels : List ℚ) :
    (∃ st', fill_docs idx docs (features, labels) = .ok st') ↔
      ∀ doc ∈ docs, ∀ p ∈ doc,
        p.1 = LABEL_FEATURE ∨ p.1 ∈ features.map Prod.fst := by
  induction docs generalizing idx features labels with
  | nil => simp [fill_docs]
  | cons doc rest ih =>
    rw [fill_docs]
    cases hfd : fill_doc idx doc (features, labels) with
    | error e =>
      have hnot : ¬ ∀ p ∈ doc,
          p.1 = LABEL_FEATURE ∨ p.1 ∈ features.map Prod.fst := by
        intro hcond
        obtain ⟨st', hst⟩ := (fill_doc_ok_iff idx doc features labels).mpr hcond
        rw [hfd] at hst
        cases hst
      constructor
      · rintro ⟨st', hst⟩
        cases hst
      · intro hall
        exact absurd (fun p hp => hall doc (List.mem_cons_self _ _) p hp) hnot
    | ok st' =>
      obtain ⟨features', labels'⟩ := st'
      have hkeys := fill_doc_keys idx doc features labels features' labels' hfd
      have hhead := (fill_doc_ok_iff idx doc features labels).mp ⟨_, hfd⟩
      rw [ih, hkeys]
      constructor
      · intro hrest doc' hd'
        rcases List.mem_cons.mp hd' with heq | hmem
        · subst heq
          exact hhead
        · exact hrest doc' hmem
      · intro hall doc' hmem
        exact hall doc' (List.mem_cons_of_mem _ hmem)

/-- C8 counterexample: a document mentioning feature id "2" when only "1"
is declared makes `_libsvm_generate` raise (`features.get` returns `None`
and the item assignment fails); finalization does not succeed. -/
theorem c8_counterexample_undeclared_id_raises :
    libsvm_generate 1 3 [[("label", 1), ("2", 2)]] =
      .error "TypeError: NoneType does not support item assignment." ∧
    "2" ∉ declared_ids 1 := by
  decide

/-- C8 amended: text-format finalization succeeds iff every surviving
document (after trimming to the list size) references only the label id and
declared feature ids; a record with an undeclared feature id is not
ignored — it makes finalization fail with a TypeError. -/
theorem c8_amended_undeclared_id_fails (num_features list_size : ℕ)
    (doc_list : List Doc) :
    (∃ out, libsvm_generate num_features list_size doc_list = .ok out) ↔
      ∀ doc ∈ (if doc_list.length > list_size then doc_list.take list_size
               else doc_list),
        ∀ p ∈ doc, p.1 = LABEL_FEATURE ∨ p.1 ∈ declared_ids num_features := by
  unfold libsvm_generate
  rw [fill_docs_ok_iff]
  have hkeys : ∀ ids : List String,
      (ids.map (fun fid => (fid, List.replicate list_size [(0 : ℚ)]))).map
        Prod.fst = ids := by
    intro ids
    induction ids with
    | nil => rfl
    | cons a l ihl => simp [ihl]
  rw [hkeys]

theorem c8_amended_undeclared_id_fails_witness :
    ∃ out, libsvm_generate 1 3 [[("label", 1), ("1", 5)]] = .ok out :=
  (c8_amended_undeclared_id_fails 1 3 [[("label", 1), ("1", 5)]]).mpr
    (by decide)

/- Claim C9 -/

/-- Invariant of the aggregation loop: once the accumulating list is
non-empty it stays non-empty, and every finalized batch pushed to the
output is non-empty. -/
theorem libsvm_run_invariant (lines : List (ℤ × Doc)) :
    ∀ (cur : ℤ) (doc_list : List Doc) (out : List (List Doc)),
    doc_list ≠ [] → (∀ b ∈ out, b ≠ []) →
    (lines.foldl libsvm_step (cur, doc_list, out)).2.1 ≠ [] ∧
    ∀ b ∈ (lines.foldl libsvm_step (cur, doc_list, out)).2.2, b ≠ [] := by
  induction lines with
  | nil =>
    intro cur dl out h1 h2
    exact ⟨h1, h2⟩
  | cons p rest ih =>
    intro cur dl out h1 h2
    obtain ⟨qid, doc⟩ := p
    rw [List.foldl_cons]
    simp only [libsvm_step]
    by_cases hq : qid = (if cur < 0 then qid else cur)
    · rw [if_pos hq]
      exact ih _ (dl ++ [doc]) out (by simp) h2
    · rw [if_neg hq]
      refine ih _ [doc] (out ++ [dl]) (by simp) ?_
      intro b hb
      rcases List.mem_append.mp hb with h | h
      · exact h2 b h
      · rw [List.mem_singleton] at h
        subst h
        exact h1

/-- C9 amended: after input exhaustion the aggregator always finalizes and
emits the remaining accumulated list (so at least one aggregate is always
emitted, even for empty input), and for every NON-EMPTY input no
finalization ever sees an empty accumulated list, since the first line
seeds it.  For the empty input, however, the single final emission does
finalize an empty list (see the counterexample). -/
theorem c9_amended_final_emission (lines : List (ℤ × Doc)) :
    inner_generator_batches lines ≠ [] ∧
    (lines ≠ [] → ∀ b ∈ inner_generator_batches lines, b ≠ []) := by
  constructor
  · simp [inner_generator_batches]
  · intro hne b hb
    simp only [inner_generator_batches] at hb
    obtain ⟨p, rest, rfl⟩ := List.exists_cons_of_ne_nil hne
    obtain ⟨qid, doc⟩ := p
    rw [List.foldl_cons] at hb
    have hstep : libsvm_step (-1, [], []) (qid, doc) = (qid, [doc], []) := by
      simp [libsvm_step]
    rw [hstep] at hb
    have hinv := libsvm_run_invariant rest qid [doc] [] (by simp) (by simp)
    rcases List.mem_append.mp hb with h | h
    · exact hinv.2 b h
    · rw [List.mem_singleton] at h
      subst h
      exact hinv.1

theorem c9_amended_final_emission_witness :
    inner_generator_batches [((5 : ℤ), ([("label", (1 : ℚ))] : Doc))] ≠ [] ∧
    [] ∉ inner_generator_batches [((5 : ℤ), ([("label", (1 : ℚ))] : Doc))] :=
  ⟨(c9_amended_final_emission _).1,
   fun h => (c9_amended_final_emission _).2 (by decide) [] h rfl⟩

/-- C9 counterexample: on the empty input the aggregator still finalizes
and emits exactly once, and the accumulated list at that finalization IS
empty — the emitted aggregate is pure padding.  The claim's "cannot occur",
quantified over all inputs including the empty one, is false. -/
theorem c9_counterexample_empty_input_finalizes_empty_list :
    inner_generator_batches ([] : List (ℤ × Doc)) = [[]] ∧
    inner_generator (fun l => l) 1 2 [] =
      .ok [([("1", [[0], [0]])], [-1, -1])] := by
  decide

/- Claim C7 -/

/-- A list permutation-equal to a two-element list is one of its two
orderings. -/
theorem perm_pair {α : Type} {x y : α} {l : List α} (h : l.Perm [x, y]) :
    l = [x, y] ∨ l = [y, x] := by
  rcases l with _ | ⟨a, _ | ⟨b, _ | ⟨c, l'⟩⟩⟩
  · exact absurd h.length_eq (by simp)
  · exact absurd h.length_eq (by simp)
  · have ha : a ∈ [x, y] := h.mem_iff.mp (by simp)
    simp only [List.mem_cons, List.not_mem_nil, or_false] at ha
    rcases ha with rfl | rfl
    · have hb : [b].Perm [y] := (List.perm_cons a).mp h
      have : b ∈ [y] := hb.mem_iff.mp (by simp)
      simp only [List.mem_singleton] at this
      subst this
      exact Or.inl rfl
    · have h2 : ([a, b] : List α).Perm [a, x] :=
        h.trans (List.Perm.swap a x [])
      have hb : [b].Perm [x] := (List.perm_cons a).mp h2
      have : b ∈ [x] := hb.mem_iff.mp (by simp)
      simp only [List.mem_singleton] at this
      subst this
      exact Or.inr rfl
  · exact absurd h.length_eq (by simp)

/-- C7: on the qid-sorted input with two qid-5 lines and one qid-7 line, the
aggregator emits exactly two query aggregates: the first holds the two
qid-5 records in one of their two shuffle orders, the second the single
qid-7 record, with the -1 padding sentinel in every unfilled label slot and
0 in the corresponding feature slots. -/
theorem c7_two_query_aggregation (shuffle : List Doc → List Doc)
    (hperm : ∀ l : List Doc, (shuffle l).Perm l) :
    inner_generator shuffle 1 3
        [(5, [("label", 1), ("1", 5)]), (5, [("label", 0), ("1", 9)]),
         (7, [("label", 1), ("1", 7)])] =
      .ok [([("1", [[5], [9], [0]])], [1, 0, -1]),
           ([("1", [[7], [0], [0]])], [1, -1, -1])] ∨
    inner_generator shuffle 1 3
        [(5, [("label", 1), ("1", 5)]), (5, [("label", 0), ("1", 9)]),
         (7, [("label", 1), ("1", 7)])] =
      .ok [([("1", [[9], [5], [0]])], [0, 1, -1]),
           ([("1", [[7], [0], [0]])], [1, -1, -1])] := by
  have hbatches : inner_generator_batches
      [((5 : ℤ), ([("label", (1 : ℚ)), ("1", 5)] : Doc)),
       (5, [("label", 0), ("1", 9)]), (7, [("label", 1), ("1", 7)])] =
      [[[("label", 1), ("1", 5)], [("label", 0), ("1", 9)]],
       [[("label", 1), ("1", 7)]]] := by decide
  have h3 : shuffle [[("label", 1), ("1", 7)]] = [[("label", 1), ("1", 7)]] :=
    List.perm_singleton.mp (hperm [[("label", 1), ("1", 7)]])
  have h12 := perm_pair
    (hperm [[("label", 1), ("1", 5)], [("label", 0), ("1", 9)]])
  unfold inner_generator
  rw [hbatches]
  rcases h12 with h | h
  · left
    simp only [map_except]
    rw [h, h3]
    decide
  · right
    simp only [map_except]
    rw [h, h3]
    decide

theorem c7_two_query_aggregation_witness :
    inner_generator (fun l => l) 1 3
        [(5, [("label", 1), ("1", 5)]), (5, [("label", 0), ("1", 9)]),
         (7, [("label", 1), ("1", 7)])] =
      .ok [([("1", [[5], [9], [0]])], [1, 0, -1]),
           ([("1", [[7], [0], [0]])], [1, -1, -1])] ∨
    inner_generator (fun l => l) 1 3
        [(5, [("label", 1), ("1", 5)]), (5, [("label", 0), ("1", 9)]),
         (7, [("label", 1), ("1", 7)])] =
      .ok [([("1", [[9], [5], [0]])], [0, 1, -1]),
           ([("1", [[7], [0], [0]])], [1, -1, -1])] :=
  c7_two_query_aggregation (fun l => l) (fun l => List.Perm.refl l)

/- Claim C3 -/

/-- C3: the padding-value reconciler crashes for a registered feature of
width 2.  The spec field "lbl" with shape [2] and scalar default -1 is
registered, the decoded tensor has rank 3 (so the rank assertion passes),
but `reshape(tile(range(num_frames), [batch_size]), shape(tensor))` has
`batch * frames` elements to fill `batch * frames * 2` slots, so
reconciliation — and with it the whole parse — fails instead of writing
the default beyond each row's true length. -/
theorem c3_reconciler_rejects_feature_width_two :
    build_padding_values
        [("lbl", .fixedLen ⟨[2], .float32, some (.scalar (.num (-1)))⟩)] =
      .ok [("lbl", .scalar (.num (-1)))] ∧
    reconcile_tensor ⟨1, 1, [2], none, [[[.num 0, .num 0]]]⟩ [1]
        (.scalar (.num (-1))) =
      .error "Cannot reshape a tensor: input and requested sizes differ." ∧
    parse_from_sequence_example
        ⟨[], [("lbl", .dense ⟨1, 1, [2], none, [[[.num 0, .num 0]]]⟩)],
         [("lbl", [1])]⟩
        none
        [("lbl", .fixedLen ⟨[2], .float32, some (.scalar (.num (-1)))⟩)] =
      .error "Cannot reshape a tensor: input and requested sizes differ." ∧
    reconcile_tensor ⟨1, 1, [1], none, [[[.num 0]]]⟩ [0]
        (.scalar (.num (-1))) =
      .ok ⟨1, 1, [1], none, [[[.num (-1)]]]⟩ := by
  decide

/- Reduction lemmas for the per-feature normalizer. -/

/-- Truncation branch of the normalizer on a dense tensor. -/
theorem normalize_feature_dense_truncate (efs : List (String × FeatureSpec))
    (lsArg : Option ℤ) (target : ℕ) (k : String) (t : DenseTensor)
    (h : target < t.frames) :
    normalize_feature efs lsArg target k (.dense t) =
      .ok (.dense ⟨t.batch, target, t.cellShape, lsArg,
        t.rows.map (fun r => r.take target)⟩) := by
  unfold normalize_feature
  simp [dims, h]

/-- Padding branch of the normalizer on a dense tensor: the fill value is
the feature's resolved scalar default, independent of registration. -/
theorem normalize_feature_dense_pad (efs : List (String × FeatureSpec))
    (lsArg : Option ℤ) (target : ℕ) (k : String) (t : DenseTensor)
    (f : FixedLenFeature) (s : PyScalar)
    (hspec : efs.lookup k = some (.fixedLen f))
    (hres : get_scalar_default_value f.dtype f.default_value = .ok (.scalar s))
    (h : t.frames ≤ target) :
    normalize_feature efs lsArg target k (.dense t) =
      .ok (.dense ⟨t.batch, target, t.cellShape, lsArg,
        t.rows.map (fun r => r ++ List.replicate (target - t.frames)
          (List.replicate t.cellShape.prod s))⟩) := by
  unfold normalize_feature
  simp [dims, if_neg (Nat.not_lt.mpr h), hspec, hres]

/-- Truncation branch of the normalizer on a sparse tensor. -/
theorem normalize_feature_sparse_truncate (efs : List (String × FeatureSpec))
    (lsArg : Option ℤ) (target : ℕ) (k : String) (st : SparseTensorV)
    (h : target < ((st.dense_shape.get? 1).getD 0)) :
    normalize_feature efs lsArg target k (.sparse st) =
      .ok (.sparse ⟨((st.indices.zip st.values).filter (fun p =>
          list_lt p.1 ((st.dense_shape.get? 0).getD 0 :: target ::
            st.dense_shape.drop 2))).map Prod.fst,
        ((st.indices.zip st.values).filter (fun p =>
          list_lt p.1 ((st.dense_shape.get? 0).getD 0 :: target ::
            st.dense_shape.drop 2))).map Prod.snd,
        List.zipWith min st.dense_shape ((st.dense_shape.get? 0).getD 0 ::
          target :: st.dense_shape.drop 2)⟩) := by
  unfold normalize_feature
  simp only [dims]
  rw [if_pos h]

/-- Padding branch of the normalizer on a sparse tensor: entries unchanged,
dense shape reset. -/
theorem normalize_feature_sparse_pad (efs : List (String × FeatureSpec))
    (lsArg : Option ℤ) (target : ℕ) (k : String) (st : SparseTensorV)
    (h : ((st.dense_shape.get? 1).getD 0) ≤ target)
    (hfit : st.indices.all (fun idx =>
      list_lt idx ((st.dense_shape.get? 0).getD 0 :: target ::
        st.dense_shape.drop 2)) = true) :
    normalize_feature efs lsArg target k (.sparse st) =
      .ok (.sparse ⟨st.indices, st.values,
        (st.dense_shape.get? 0).getD 0 :: target :: st.dense_shape.drop 2⟩) := by
  unfold normalize_feature
  simp only [dims]
  rw [if_neg (Nat.not_lt.mpr h), if_pos hfit]

/- Claim C2 -/

theorem wf_dense_spec (d : DenseTensor) (hwf : wf_dense d = true) :
    d.rows.length = d.batch ∧ (∀ r ∈ d.rows, r.length = d.frames) := by
  simp only [wf_dense, Bool.and_eq_true, List.all_eq_true,
    decide_eq_true_eq] at hwf
  exact ⟨hwf.1, fun r hr => (hwf.2 r hr).1⟩

theorem get_replicate {α : Type} (a : α) (n m : ℕ) :
    (List.replicate n a).get? m = if m < n then some a else none := by
  induction n generalizing m with
  | zero => simp
  | succ n ih =>
    cases m with
    | zero => simp [List.replicate]
    | succ m =>
      rw [List.replicate_succ, List.get?_cons_succ, ih]
      simp [Nat.succ_lt_succ_iff]

/-- C2 amended: on a dense per-position field, truncation keeps exactly the
cells at positions below the target length, bit-identical, and drops the
rest; padding appends `target - frames` positions per row, each filled with
the field's EFFECTIVE SCALAR DEFAULT resolved from its spec — which equals
the registered default for registered fields, but is NOT zero/empty for an
unregistered field whose declared default is a non-empty string (see the
counterexample) — and leaves all earlier positions unchanged. -/
theorem c2_amended_dense_truncate_pad (efs : List (String × FeatureSpec))
    (lsArg : Option ℤ) (target : ℕ) (k : String) (t : DenseTensor)
    (f : FixedLenFeature) (s : PyScalar)
    (hspec : efs.lookup k = some (.fixedLen f))
    (hres : get_scalar_default_value f.dtype f.default_value = .ok (.scalar s))
    (hwf : wf_dense t = true) :
    (target < t.frames →
      normalize_feature efs lsArg target k (.dense t) =
        .ok (.dense ⟨t.batch, target, t.cellShape, lsArg,
          t.rows.map (fun r => r.take target)⟩) ∧
      ∀ i j, cell_at ⟨t.batch, target, t.cellShape, lsArg,
          t.rows.map (fun r => r.take target)⟩ i j =
        if j < target then cell_at t i j else none) ∧
    (t.frames ≤ target →
      normalize_feature efs lsArg target k (.dense t) =
        .ok (.dense ⟨t.batch, target, t.cellShape, lsArg,
          t.rows.map (fun r => r ++ List.replicate (target - t.frames)
            (List.replicate t.cellShape.prod s))⟩) ∧
      ∀ i j, cell_at ⟨t.batch, target, t.cellShape, lsArg,
          t.rows.map (fun r => r ++ List.replicate (target - t.frames)
            (List.replicate t.cellShape.prod s))⟩ i j =
        if j < t.frames then cell_at t i j
        else if i < t.batch ∧ j < target then
          some (List.replicate t.cellShape.prod s)
        else none) := by
  obtain ⟨hlen, hrows⟩ := wf_dense_spec t hwf
  constructor
  · intro h
    refine ⟨normalize_feature_dense_truncate efs lsArg target k t h, ?_⟩
    intro i j
    unfold cell_at
    rw [List.get?_map]
    cases hi : t.rows.get? i with
    | none =>
      simp
    | some r =>
      simp only [Option.map_some', Option.getD_some]
      by_cases hj : j < target
      · rw [List.get?_take hj, if_pos hj]
      · rw [if_neg hj]
        refine List.get?_eq_none.mpr ?_
        calc (r.take target).length ≤ target := by
              rw [List.length_take]
              exact min_le_left _ _
          _ ≤ j := Nat.not_lt.mp hj
  · intro h
    refine ⟨normalize_feature_dense_pad efs lsArg target k t f s hspec hres h, ?_⟩
    intro i j
    unfold cell_at
    rw [List.get?_map]
    cases hi : t.rows.get? i with
    | none =>
      have hge : t.batch ≤ i := by
        rw [← hlen]
        exact List.get?_eq_none.mp hi
      simp [Nat.not_lt.mpr hge]
    | some r =>
      have hmem : r ∈ t.rows := List.get?_mem hi
      have hrlen : r.length = t.frames := hrows r hmem
      obtain ⟨hlt, _⟩ := List.get?_eq_some.mp hi
      have hib : i < t.batch := hlen ▸ hlt
      simp only [Option.map_some', Option.getD_some]
      by_cases hj : j < t.frames
      · rw [List.get?_append (by rw [hrlen]; exact hj), if_pos hj]
      · rw [List.get?_append_right (by rw [hrlen]; exact Nat.not_lt.mp hj),
          get_replicate, hrlen, if_neg hj]
        by_cases hjt : j < target
        · rw [if_pos (show j - t.frames < target - t.frames by omega),
            if_pos (show i < t.batch ∧ j < target from ⟨hib, hjt⟩)]
        · rw [if_neg (show ¬ j - t.frames < target - t.frames by omega),
            if_neg (show ¬ (i < t.batch ∧ j < target) from fun hc => hjt hc.2)]

/-- C2 counterexample: the field "f" (string type, declared default "x") is
NOT in the padding-value registry, yet padding it to length 2 fills the new
position with "x", not with the empty string the claim prescribes for
unregistered fields. -/
theorem c2_counterexample_unregistered_string_pad :
    build_padding_values
        [("f", .fixedLen ⟨[1], DType.string, some (.scalar (.str "x"))⟩)] =
      .ok [] ∧
    normalize_feature
        [("f", .fixedLen ⟨[1], DType.string, some (.scalar (.str "x"))⟩)]
        none 2 "f" (.dense ⟨1, 1, [1], none, [[[.str "y"]]]⟩) =
      .ok (.dense ⟨1, 2, [1], none, [[[.str "y"], [.str "x"]]]⟩) ∧
    PyScalar.str "x" ≠ .str "" := by
  decide

theorem c2_amended_dense_truncate_pad_witness :
    normalize_feature [("f", .fixedLen ⟨[1], .float32, some (.scalar (.num (-1)))⟩)]
        none 3 "f" (.dense ⟨1, 1, [1], none, [[[.num 7]]]⟩) =
      .ok (.dense ⟨1, 3, [1], none, [[[.num 7], [.num (-1)], [.num (-1)]]]⟩) :=
  ((c2_amended_dense_truncate_pad
      [("f", .fixedLen ⟨[1], .float32, some (.scalar (.num (-1)))⟩)]
      none 3 "f" ⟨1, 1, [1], none, [[[.num 7]]]⟩
      ⟨[1], .float32, some (.scalar (.num (-1)))⟩ (.num (-1))
      (by decide) (by decide) (by decide)).2 (by decide)).1

/- Claim C6 -/

theorem wf_sparse_spec (st : SparseTensorV) (hwf : wf_sparse st = true) :
    st.indices.length = st.values.length ∧ 2 ≤ st.dense_shape.length ∧
    ∀ idx ∈ st.indices, idx.length = st.dense_shape.length ∧
      list_lt idx st.dense_shape = true := by
  simp only [wf_sparse, Bool.and_eq_true, List.all_eq_true,
    decide_eq_true_eq] at hwf
  exact ⟨hwf.1.1, hwf.1.2, fun idx h => ⟨(hwf.2 idx h).1, (hwf.2 idx h).2⟩⟩

theorem zip_with_min_self (l : List ℕ) : List.zipWith min l l = l := by
  induction l with
  | nil => rfl
  | cons a t ih => simp [ih]

/-- C6: for a sparse per-position field, truncating to target length L keeps
exactly the entries whose position-axis index (coordinate 1) is below L and
clamps the declared position-axis bound to L; padding to L keeps indices and
values untouched and only raises the position-axis bound to L. -/
theorem c6_sparse_truncate_pad (efs : List (String × FeatureSpec))
    (lsArg : Option ℤ) (target : ℕ) (k : String) (st : SparseTensorV)
    (hwf : wf_sparse st = true) :
    (target < (st.dense_shape.get? 1).getD 0 →
      normalize_feature efs lsArg target k (.sparse st) =
        .ok (.sparse ⟨((st.indices.zip st.values).filter (fun p =>
            decide ((p.1.get? 1).getD 0 < target))).map Prod.fst,
          ((st.indices.zip st.values).filter (fun p =>
            decide ((p.1.get? 1).getD 0 < target))).map Prod.snd,
          st.dense_shape.set 1 target⟩)) ∧
    ((st.dense_shape.get? 1).getD 0 ≤ target →
      normalize_feature efs lsArg target k (.sparse st) =
        .ok (.sparse ⟨st.indices, st.values, st.dense_shape.set 1 target⟩)) := by
  obtain ⟨hlen, hrank, hidx⟩ := wf_sparse_spec st hwf
  rcases hshape : st.dense_shape with _ | ⟨s0, _ | ⟨s1, rest⟩⟩
  · rw [hshape] at hrank
    simp at hrank
  · rw [hshape] at hrank
    simp at hrank
  · rw [hshape] at hidx
    have hdecomp : ∀ idx ∈ st.indices, ∃ i0 i1 irest, idx = i0 :: i1 :: irest ∧
        i0 < s0 ∧ i1 < s1 ∧ list_lt irest rest = true := by
      intro idx hmem
      obtain ⟨hlen', hlt⟩ := hidx idx hmem
      rcases idx with _ | ⟨i0, _ | ⟨i1, irest⟩⟩
      · simp at hlen'
      · simp at hlen'
      · simp only [list_lt, Bool.and_eq_true, decide_eq_true_eq] at hlt
        exact ⟨i0, i1, irest, rfl, hlt.1, hlt.2.1, hlt.2.2⟩
    constructor
    · intro h
      simp only [List.get?_cons_succ, List.get?_cons_zero,
        Option.getD_some] at h
      have hred := normalize_feature_sparse_truncate efs lsArg target k st
        (by rw [hshape]; simpa using h)
      rw [hshape] at hred
      rw [hred]
      have hfilter : (st.indices.zip st.values).filter (fun p =>
          list_lt p.1 (((s0 :: s1 :: rest).get? 0).getD 0 :: target ::
            (s0 :: s1 :: rest).drop 2)) =
          (st.indices.zip st.values).filter (fun p =>
            decide ((p.1.get? 1).getD 0 < target)) := by
        refine List.filter_congr ?_
        intro p hp
        have hmem : p.1 ∈ st.indices := (List.mem_zip hp).1
        obtain ⟨i0, i1, irest, heq, hi0, hi1, hirest⟩ := hdecomp p.1 hmem
        rw [heq]
        simp [list_lt, hi0, hirest]
      rw [hfilter]
      have hmin : List.zipWith min (s0 :: s1 :: rest)
          (((s0 :: s1 :: rest).get? 0).getD 0 :: target ::
            (s0 :: s1 :: rest).drop 2) = (s0 :: s1 :: rest).set 1 target := by
        simp [zip_with_min_self, Nat.min_eq_right (Nat.le_of_lt h)]
      rw [hmin]
    · intro h
      simp only [List.get?_cons_succ, List.get?_cons_zero,
        Option.getD_some] at h
      have hfit : st.indices.all (fun idx =>
          list_lt idx ((st.dense_shape.get? 0).getD 0 :: target ::
            st.dense_shape.drop 2)) = true := by
        rw [List.all_eq_true]
        intro idx hmem
        obtain ⟨i0, i1, irest, heq, hi0, hi1, hirest⟩ := hdecomp idx hmem
        rw [hshape, heq]
        simp [list_lt, hi0, hirest]
        omega
      have hred := normalize_feature_sparse_pad efs lsArg target k st
        (by rw [hshape]; simpa using h) hfit
      rw [hshape] at hred
      rw [hred]
      simp

theorem c6_sparse_truncate_pad_witness :
    normalize_feature [] none 1 "v"
        (.sparse ⟨[[0, 0, 0], [0, 1, 1]], [.str "a", .str "b"], [1, 2, 3]⟩) =
      .ok (.sparse ⟨[[0, 0, 0]], [.str "a"], [1, 1, 3]⟩) ∧
    normalize_feature [] none 4 "v"
        (.sparse ⟨[[0, 0, 0], [0, 1, 1]], [.str "a", .str "b"], [1, 2, 3]⟩) =
      .ok (.sparse ⟨[[0, 0, 0], [0, 1, 1]], [.str "a", .str "b"], [1, 4, 3]⟩) :=
  ⟨(c6_sparse_truncate_pad [] none 1 "v"
      ⟨[[0, 0, 0], [0, 1, 1]], [.str "a", .str "b"], [1, 2, 3]⟩
      (by decide)).1 (by decide),
   (c6_sparse_truncate_pad [] none 4 "v"
      ⟨[[0, 0, 0], [0, 1, 1]], [.str "a", .str "b"], [1, 2, 3]⟩
      (by decide)).2 (by decide)⟩

/- Claim C1 -/

theorem dims_eq_tshape (t : TensorV) : dims t = (tshape t).2 := by
  cases t <;> rfl

theorem length_map_idx_from {α β : Type} (f : ℕ → α → β) (l : List α) :
    ∀ i, (map_idx_from f i l).length = l.length := by
  induction l with
  | nil => intro i; rfl
  | cons a t ih => intro i; simp [map_idx_from, ih]

theorem mem_map_idx_from {α β : Type} (f : ℕ → α → β) (l : List α) :
    ∀ (i : ℕ) (b : β), b ∈ map_idx_from f i l → ∃ j a, a ∈ l ∧ b = f j a := by
  induction l with
  | nil =>
    intro i b hb
    simp [map_idx_from] at hb
  | cons a t ih =>
    intro i b hb
    simp only [map_idx_from, List.mem_cons] at hb
    rcases hb with rfl | hb
    · exact ⟨i, a, List.mem_cons_self _ _, rfl⟩
    · obtain ⟨j, x, hx, rfl⟩ := ih (i + 1) b hb
      exact ⟨j, x, List.mem_cons_of_mem _ hx, rfl⟩

theorem mem_of_lookup {α : Type} (l : List (String × α)) (k : String) (v : α)
    (h : l.lookup k = some v) : (k, v) ∈ l := by
  induction l with
  | nil => cases h
  | cons p rest ih =>
    obtain ⟨k₀, v₀⟩ := p
    by_cases hk : k = k₀
    · subst hk
      simp only [List.lookup, beq_self_eq_true] at h
      cases h
      exact List.mem_cons_self _ _
    · have hb : (k == k₀) = false := beq_eq_false_iff_ne.mpr hk
      simp only [List.lookup, hb] at h
      exact List.mem_cons_of_mem _ (ih h)

theorem mem_update_assoc {α : Type} (l : List (String × α)) (k : String)
    (v : α) : ∀ p ∈ update_assoc l k v, p = (k, v) ∨ p ∈ l := by
  induction l with
  | nil =>
    intro p hp
    cases hp
  | cons q rest ih =>
    intro p hp
    by_cases hq : q.1 = k
    · rw [update_assoc, if_pos hq] at hp
      rcases List.mem_cons.mp hp with rfl | hm
      · exact Or.inl rfl
      · exact Or.inr (List.mem_cons_of_mem _ hm)
    · rw [update_assoc, if_neg hq] at hp
      rcases List.mem_cons.mp hp with rfl | hm
      · exact Or.inr (List.mem_cons_self _ _)
      · rcases ih p hm with h | h
        · exact Or.inl h
        · exact Or.inr (List.mem_cons_of_mem _ h)

theorem update_assoc_map_key_g {α γ : Type} (g : α → γ) (k : String)
    (v' v : α) : ∀ l : List (String × α), l.lookup k = some v → g v' = g v →
    (update_assoc l k v').map (fun p => (p.1, g p.2)) =
      l.map (fun p => (p.1, g p.2)) := by
  intro l
  induction l with
  | nil => intro h; cases h
  | cons q rest ih =>
    intro hlk hg
    obtain ⟨k₀, v₀⟩ := q
    by_cases hk : k₀ = k
    · subst hk
      simp only [List.lookup, beq_self_eq_true] at hlk
      cases hlk
      rw [update_assoc, if_pos rfl]
      simp [hg]
    · have hb : (k == k₀) = false := beq_eq_false_iff_ne.mpr (fun h => hk h.symm)
      simp only [List.lookup, hb] at hlk
      rw [update_assoc, if_neg hk]
      simp only [List.map_cons]
      rw [ih hlk hg]

/-- The reconciler keeps every declared dimension and the row-level shape. -/
theorem reconcile_tensor_spec (t : DenseTensor) (sizes : List ℕ) (v : PyVal)
    (t' : DenseTensor) (hok : reconcile_tensor t sizes v = .ok t') :
    t'.batch = t.batch ∧ t'.frames = t.frames ∧ t'.cellShape = t.cellShape ∧
    t'.static1 = t.static1 ∧ (rows_wf t → rows_wf t') := by
  unfold reconcile_tensor at hok
  by_cases h1 : t.cellShape.length = 1
  · rw [if_pos h1] at hok
    by_cases h2 : t.batch * t.frames = t.batch * t.frames * t.cellShape.headD 0
    · rw [if_pos h2] at hok
      rcases v with sc | xs
      · rcases sc with x | s
        · simp only [Except.ok.injEq] at hok
          subst hok
          refine ⟨rfl, rfl, rfl, rfl, ?_⟩
          rintro ⟨hl1, hl2⟩
          constructor
          · simpa [length_map_idx_from] using hl1
          · intro r' hr'
            obtain ⟨j, r, hr, rfl⟩ := mem_map_idx_from _ _ _ _ hr'
            simpa [length_map_idx_from] using hl2 r hr
        · simp at hok
      · simp at hok
    · rw [if_neg h2] at hok
      cases hok
  · rw [if_neg h1] at hok
    cases hok

/-- Reconciliation rewrites values only: keys, kinds and shapes of the whole
example map survive, and so does row-level well-formedness. -/
theorem apply_padding_values_spec (sizes : List (String × List ℕ)) :
    ∀ (pvs : List (String × PyVal)) (exs exs' : List (String × TensorV)),
    apply_padding_values sizes pvs exs = .ok exs' →
    exs'.map (fun p => (p.1, tshape p.2)) =
      exs.map (fun p => (p.1, tshape p.2)) ∧
    ((∀ p ∈ exs, ∀ dd, p.2 = .dense dd → rows_wf dd) →
     (∀ p ∈ exs', ∀ dd, p.2 = .dense dd → rows_wf dd)) := by
  intro pvs
  induction pvs with
  | nil =>
    intro exs exs' hok
    simp only [apply_padding_values, Except.ok.injEq] at hok
    subst hok
    exact ⟨rfl, fun h => h⟩
  | cons pv rest ih =>
    intro exs exs' hok
    obtain ⟨k, v⟩ := pv
    rcases hlk : exs.lookup k with _ | t
    · rw [apply_padding_values, hlk] at hok
      simp at hok
    · cases t with
      | sparse s =>
        rw [apply_padding_values, hlk] at hok
        simp at hok
      | dense d =>
        rw [apply_padding_values, hlk] at hok
        have hok2 : (match sizes.lookup k with
            | none =>
              (Except.error "KeyError: sizes missing." :
                Except String (List (String × TensorV)))
            | some sz =>
              match reconcile_tensor d sz v with
              | .error e => .error e
              | .ok d' =>
                apply_padding_values sizes rest
                  (update_assoc exs k (.dense d'))) = .ok exs' := hok
        clear hok
        rcases hsz : sizes.lookup k with _ | sz
        · rw [hsz] at hok2
          simp at hok2
        · rw [hsz] at hok2
          have hok3 : (match reconcile_tensor d sz v with
              | .error e =>
                (.error e : Except String (List (String × TensorV)))
              | .ok d' =>
                apply_padding_values sizes rest
                  (update_assoc exs k (.dense d'))) = .ok exs' := hok2
          clear hok2
          rcases hrec : reconcile_tensor d sz v with e | d'
          · rw [hrec] at hok3
            simp at hok3
          · rw [hrec] at hok3
            obtain ⟨hmap, hwfp⟩ := ih (update_assoc exs k (.dense d')) exs' hok3
            obtain ⟨hb, hf, hc, hs, hwfd⟩ := reconcile_tensor_spec d sz v d' hrec
            constructor
            · rw [hmap]
              refine update_assoc_map_key_g _ k (.dense d') (.dense d) exs hlk ?_
              simp [tshape, hb, hf, hc]
            · intro hwf
              refine hwfp ?_
              intro p hp dd hdd
              rcases mem_update_assoc exs k (.dense d') p hp with heq | hm
              · subst heq
                simp only at hdd
                cases hdd
                exact hwfd (hwf (k, .dense d) (mem_of_lookup exs k _ hlk) d rfl)
              · exact hwf p hm dd hdd

/-- On a dense input the normalizer yields a dense tensor whose declared 2nd
dimension is the target length and whose rows are truncated or padded. -/
theorem normalize_feature_dense_out (efs : List (String × FeatureSpec))
    (lsArg : Option ℤ) (target : ℕ) (k : String) (d : DenseTensor)
    (t' : TensorV)
    (hok : normalize_feature efs lsArg target k (.dense d) = .ok t') :
    ∃ rows', t' = .dense ⟨d.batch, target, d.cellShape, lsArg, rows'⟩ ∧
      ((target < d.frames ∧ rows' = d.rows.map (fun r => r.take target)) ∨
       (d.frames ≤ target ∧ ∃ c, rows' = d.rows.map (fun r =>
         r ++ List.replicate (target - d.frames) c))) := by
  by_cases h : target < d.frames
  · rw [normalize_feature_dense_truncate efs lsArg target k d h] at hok
    simp only [Except.ok.injEq] at hok
    exact ⟨_, hok.symm, Or.inl ⟨h, rfl⟩⟩
  · have h' : d.frames ≤ target := Nat.not_lt.mp h
    unfold normalize_feature at hok
    simp only [dims, List.get?_cons_succ, List.get?_cons_zero,
      Option.getD_some] at hok
    rw [if_neg h] at hok
    rcases hlk : efs.lookup k with _ | sp
    · rw [hlk] at hok
      simp at hok
    · cases sp with
      | varLen dt =>
        rw [hlk] at hok
        simp at hok
      | fixedLen f =>
        rw [hlk] at hok
        dsimp only at hok
        rcases hres : get_scalar_default_value f.dtype f.default_value with e | pv
        · rw [hres] at hok
          simp at hok
        · rw [hres] at hok
          cases pv with
          | vlist xs => simp at hok
          | scalar s =>
            simp only [Except.ok.injEq] at hok
            exact ⟨_, hok.symm, Or.inr ⟨h', _, rfl⟩⟩

/-- On a sparse input the normalizer yields a sparse tensor. -/
theorem normalize_feature_sparse_out (efs : List (String × FeatureSpec))
    (lsArg : Option ℤ) (target : ℕ) (k : String) (st : SparseTensorV)
    (t' : TensorV)
    (hok : normalize_feature efs lsArg target k (.sparse st) = .ok t') :
    ∃ st', t' = .sparse st' := by
  unfold normalize_feature at hok
  simp only [dims] at hok
  by_cases h : target < (st.dense_shape.get? 1).getD 0
  · rw [if_pos h] at hok
    simp only [Except.ok.injEq] at hok
    exact ⟨_, hok.symm⟩
  · rw [if_neg h] at hok
    by_cases hfit : st.indices.all (fun idx =>
        list_lt idx ((st.dense_shape.get? 0).getD 0 :: target ::
          st.dense_shape.drop 2)) = true
    · rw [if_pos hfit] at hok
      simp only [Except.ok.injEq] at hok
      exact ⟨_, hok.symm⟩
    · rw [if_neg hfit] at hok
      simp at hok

/-- The collection loop keeps keys and order, normalizing each feature. -/
theorem normalize_all_spec (efs : List (String × FeatureSpec))
    (lsArg : Option ℤ) (target : ℕ) :
    ∀ (exs out : List (String × TensorV)),
    normalize_all efs lsArg target exs = .ok out →
    out.map Prod.fst = exs.map Prod.fst ∧
    ∀ q ∈ out, ∃ p, p ∈ exs ∧ p.1 = q.1 ∧
      normalize_feature efs lsArg target p.1 p.2 = .ok q.2 := by
  intro exs
  induction exs with
  | nil =>
    intro out hok
    simp only [normalize_all, Except.ok.injEq] at hok
    subst hok
    exact ⟨rfl, by simp⟩
  | cons p rest ih =>
    intro out hok
    obtain ⟨k, t⟩ := p
    rw [normalize_all] at hok
    rcases hnf : normalize_feature efs lsArg target k t with e | t'
    · rw [hnf] at hok
      simp at hok
    · rw [hnf] at hok
      simp only [except_bind_ok] at hok
      rcases hrest : normalize_all efs lsArg target rest with e | out'
      · rw [hrest] at hok
        simp at hok
      · rw [hrest] at hok
        simp only [except_bind_ok, Except.ok.injEq] at hok
        subst hok
        obtain ⟨hkeys, hmem⟩ := ih out' hrest
        constructor
        · simp [hkeys]
        · intro q hq
          rcases List.mem_cons.mp hq with rfl | hq'
          · exact ⟨(k, t), List.mem_cons_self _ _, rfl, hnf⟩
          · obtain ⟨p', hp', hk', hn'⟩ := hmem q hq'
            exact ⟨p', List.mem_cons_of_mem _ hp', hk', hn'⟩

theorem target_length_some (n : ℤ) (exs : List (String × TensorV)) :
    target_length (some n) exs = .ok n.toNat := rfl

theorem target_length_none (exs : List (String × TensorV)) (hne : exs ≠ []) :
    target_length none exs =
      .ok ((exs.map (fun p => dim1 p.2)).foldr max 0) := by
  cases exs with
  | nil => exact absurd rfl hne
  | cons a l => rfl

/-- C1: when `parse_from_sequence_example` succeeds, its output is the
context features passed through verbatim followed by the normalized example
features in spec order; every dense per-position field has declared 2nd
dimension and row lengths equal to one common target length T, where T is
the caller's `list_size` when that is a positive integer and otherwise the
maximum position count observed across all per-position fields of the
batch. -/
theorem c1_output_shape_contract (decoded : ParsedBatch) (ls : Option ℤ)
    (efs : List (String × FeatureSpec)) (feats : List (String × TensorV))
    (hwf : ∀ p ∈ decoded.examples, ∀ dd, p.2 = TensorV.dense dd → rows_wf dd)
    (hok : parse_from_sequence_example decoded ls efs = .ok feats) :
    ∃ norm T,
      feats = decoded.context ++ norm ∧
      norm.map Prod.fst = decoded.examples.map Prod.fst ∧
      (∀ q ∈ norm, ∀ dd, q.2 = TensorV.dense dd →
        dd.frames = T ∧ dd.rows.length = dd.batch ∧
        ∀ r ∈ dd.rows, r.length = T) ∧
      (∀ n : ℤ, ls = some n → 0 < n → T = n.toNat) ∧
      ((ls = none ∨ ∃ n, ls = some n ∧ n ≤ 0) →
        T = ((decoded.examples.map (fun p => dim1 p.2)).foldr max 0)) := by
  unfold parse_from_sequence_example at hok
  rcases hpv : build_padding_values efs with e | pvs
  · rw [hpv] at hok
    simp at hok
  · rw [hpv] at hok
    simp only [except_bind_ok] at hok
    rcases happ : apply_padding_values decoded.sizes pvs decoded.examples
      with e | exs'
    · rw [happ] at hok
      simp at hok
    · rw [happ] at hok
      simp only [except_bind_ok] at hok
      rcases htl : target_length (resolved_list_size ls) exs' with e | T
      · rw [htl] at hok
        simp at hok
      · rw [htl] at hok
        simp only [except_bind_ok] at hok
        rcases hna : normalize_all efs (resolved_list_size ls) T exs'
          with e | norm
        · rw [hna] at hok
          simp at hok
        · rw [hna] at hok
          simp only [except_bind_ok, Except.ok.injEq] at hok
          subst hok
          obtain ⟨hmap, hwfp⟩ :=
            apply_padding_values_spec decoded.sizes pvs decoded.examples exs' happ
          obtain ⟨hkeys, hmem⟩ :=
            normalize_all_spec efs (resolved_list_size ls) T exs' norm hna
          have hkeys2 : exs'.map Prod.fst = decoded.examples.map Prod.fst := by
            have hc := congrArg (List.map Prod.fst) hmap
            simpa [List.map_map, Function.comp] using hc
          have hdim : exs'.map (fun p => dim1 p.2) =
              decoded.examples.map (fun p => dim1 p.2) := by
            have hc := congrArg
              (List.map (fun q : String × (Bool × List ℕ) =>
                ((q.2.2.get? 1)).getD 0)) hmap
            simpa [List.map_map, Function.comp, dim1, dims_eq_tshape] using hc
          refine ⟨norm, T, rfl, hkeys.trans hkeys2, ?_, ?_, ?_⟩
          · intro q hq dd hdd
            obtain ⟨p, hp, hk, hn⟩ := hmem q hq
            have hwfIn := hwfp hwf
            cases hpt : p.2 with
            | sparse stIn =>
              rw [hpt] at hn
              obtain ⟨st', heq⟩ :=
                normalize_feature_sparse_out _ _ _ _ _ _ hn
              rw [hdd] at heq
              cases heq
            | dense dIn =>
              rw [hpt] at hn
              obtain ⟨rows', heq, hcase⟩ :=
                normalize_feature_dense_out _ _ _ _ _ _ hn
              rw [hdd] at heq
              cases heq
              obtain ⟨hrl, hrr⟩ := hwfIn p hp dIn hpt
              refine ⟨rfl, ?_, ?_⟩
              · rcases hcase with ⟨hlt, rfl⟩ | ⟨hle, c, rfl⟩ <;>
                  simpa using hrl
              · rcases hcase with ⟨hlt, rfl⟩ | ⟨hle, c, rfl⟩
                · intro r hr
                  obtain ⟨r0, hr0, rfl⟩ := List.mem_map.mp hr
                  rw [List.length_take, hrr r0 hr0]
                  omega
                · intro r hr
                  obtain ⟨r0, hr0, rfl⟩ := List.mem_map.mp hr
                  rw [List.length_append, List.length_replicate, hrr r0 hr0]
                  omega
          · intro n hls hpos
            rw [hls] at htl
            rw [show resolved_list_size (some n) = some n by
              simp [resolved_list_size, Int.not_le.mpr hpos]] at htl
            rw [target_length_some] at htl
            simp only [Except.ok.injEq] at htl
            exact htl.symm
          · intro hcase
            have hres0 : resolved_list_size ls = none := by
              rcases hcase with rfl | ⟨n, rfl, hn⟩
              · rfl
              · simp [resolved_list_size, hn]
            rw [hres0] at htl
            have hne : exs' ≠ [] := by
              intro he
              rw [he] at htl
              cases htl
            rw [target_length_none exs' hne] at htl
            simp only [Except.ok.injEq] at htl
            rw [← htl, hdim]

theorem c1_output_shape_contract_witness :
    ∃ norm T,
      ([(("q", TensorV.dense ⟨1, 1, [], none, [[[]]]⟩))] ++
        [("f", TensorV.dense ⟨1, 2, [1], some 2,
          [[[.num 4], [.num 6]]]⟩)]) =
        [("q", TensorV.dense ⟨1, 1, [], none, [[[]]]⟩)] ++ norm ∧
      norm.map Prod.fst =
        [("f", TensorV.dense ⟨1, 2, [1], none,
          [[[.num 4], [.num 6]]]⟩)].map Prod.fst ∧
      (∀ q ∈ norm, ∀ dd, q.2 = TensorV.dense dd →
        dd.frames = T ∧ dd.rows.length = dd.batch ∧
        ∀ r ∈ dd.rows, r.length = T) ∧
      (∀ n : ℤ, (some (2 : ℤ) : Option ℤ) = some n → 0 < n → T = n.toNat) ∧
      (((some (2 : ℤ) : Option ℤ) = none ∨
          ∃ n, (some (2 : ℤ) : Option ℤ) = some n ∧ n ≤ 0) →
        T = (([("f", TensorV.dense ⟨1, 2, [1], none,
          [[[.num 4], [.num 6]]]⟩)].map
            (fun p => dim1 p.2)).foldr max 0)) := by
  obtain ⟨norm, T, h⟩ := c1_output_shape_contract
    ⟨[("q", .dense ⟨1, 1, [], none, [[[]]]⟩)],
     [("f", .dense ⟨1, 2, [1], none, [[[.num 4], [.num 6]]]⟩)],
     [("f", [2])]⟩
    (some 2)
    [("f", .fixedLen ⟨[1], .float32, none⟩)]
    ([("q", .dense ⟨1, 1, [], none, [[[]]]⟩)] ++
      [("f", .dense ⟨1, 2, [1], some 2, [[[.num 4], [.num 6]]]⟩)])
    (by
      intro p hp dd hdd
      simp only [List.mem_singleton] at hp
      subst hp
      simp only at hdd
      cases hdd
      exact ⟨rfl, by decide⟩)
    (by decide)
  exact ⟨norm, T, h⟩
